import Mathlib

/-!
# Verification of `simulador_hospital.py`

Shallow embedding of the hospital simulator's concurrency core.

The program runs N patient threads that compete for three module-level
counting semaphores (`medicos_sem`, `salas_sem`, `leitos_sem`).  Each
patient's `run_process` launches activity threads (`thread_consulta`,
`thread_exame`, `thread_cirurgia`, `thread_leito`) and blocks on per-stage
`threading.Event` completion signals.

We embed each activity thread as a function from an *environment* — the
outcome of each timeout-bounded `Semaphore.acquire` call (a `Bool`) and the
raw uniform draws (`random.random()` outputs, modelled as rationals in
[0,1]) — to the finite trace of observable events the thread performs:
semaphore acquisitions (success or timeout), releases, timed holds
(`time.sleep(dur)`), and completion-signal sets (`Event.set`).
`random.uniform(a, b)` is embedded exactly as CPython computes it:
`a + (b - a) * u` with `u = random.random()`.
-/

namespace Hospital

/-- The three resource pools (module-level semaphores in the source). -/
inductive Res
  | medicos
  | salas
  | leitos
deriving DecidableEq, Repr

/-- The four per-patient stage-completion signals (`threading.Event`s). -/
inductive Sig
  | consulta
  | exames
  | cirurgia
  | leito
deriving DecidableEq, Repr

/-- Observable events of an activity thread:
`acqOk r` / `acqTO r` — a `r.acquire(timeout=…)` call that returned
True / False; `rel r` — `r.release()`; `hold d` — `time.sleep(d)` holding
the currently-held permits for duration `d`; `sigSet s` — `s.set()`. -/
inductive Ev
  | acqOk (r : Res)
  | acqTO (r : Res)
  | rel (r : Res)
  | hold (d : ℚ)
  | sigSet (s : Sig)
deriving DecidableEq, Repr

-- Configured duration ranges (module constants of the source, in seconds).
def TEMPO_CONSULTA_MIN : ℚ := 30
def TEMPO_CONSULTA_MAX : ℚ := 45
def TEMPO_EXAME_MIN : ℚ := 25
def TEMPO_EXAME_MAX : ℚ := 35
def TEMPO_CIRURGIA_MIN : ℚ := 40
def TEMPO_CIRURGIA_MAX : ℚ := 60
def TEMPO_LEITO_MIN : ℚ := 35
def TEMPO_LEITO_MAX : ℚ := 50

-- Configured branching probabilities (module constants of the source).
def P_PROB_EXAME : ℚ := 0.6
def P_PROB_CIRURGIA : ℚ := 0.3
def P_PROB_CIRURGIA_DIRECT : ℚ := 0.05

/-- `random.uniform(a, b)` as CPython implements it:
`a + (b - a) * random.random()`. -/
def uniform (a b u : ℚ) : ℚ := a + (b - a) * u

/-- Environment of one `thread_consulta` run: whether
`medicos_sem.acquire(timeout=30)` succeeded, and the raw draw behind
`random.uniform(TEMPO_CONSULTA_MIN, TEMPO_CONSULTA_MAX)`. -/
structure ConsultaEnv where
  medicoOk : Bool
  u : ℚ

/-- `Patient.thread_consulta`: acquire a practitioner with timeout; on
timeout log and set `consulta_done`; on success sleep a uniform duration,
then (in `finally`) release the practitioner and set `consulta_done`. -/
def thread_consulta (e : ConsultaEnv) : List Ev :=
  if e.medicoOk then
    [.acqOk .medicos,
     .hold (uniform TEMPO_CONSULTA_MIN TEMPO_CONSULTA_MAX e.u),
     .rel .medicos, .sigSet .consulta]
  else
    [.acqTO .medicos, .sigSet .consulta]

/-- Environment of one `thread_exame` run: the draw behind
`precisa_medico = random.random() < 0.3`, whether
`medicos_sem.acquire(timeout=30)` succeeded (only consulted when a
practitioner is needed), and the raw duration draw. -/
structure ExameEnv where
  uPrecisa : ℚ
  medicoOk : Bool
  u : ℚ

/-- `Patient.thread_exame`: with probability 0.3 the exam needs a
practitioner (acquire / timeout / hold / release, then set `exames_done`
in `finally`); otherwise just hold a uniform duration and set
`exames_done`. -/
def thread_exame (e : ExameEnv) : List Ev :=
  if e.uPrecisa < (0.3 : ℚ) then
    if e.medicoOk then
      [.acqOk .medicos,
       .hold (uniform TEMPO_EXAME_MIN TEMPO_EXAME_MAX e.u),
       .rel .medicos, .sigSet .exames]
    else
      [.acqTO .medicos, .sigSet .exames]
  else
    [.hold (uniform TEMPO_EXAME_MIN TEMPO_EXAME_MAX e.u), .sigSet .exames]

/-- Environment of one `thread_cirurgia` run: whether
`salas_sem.acquire(timeout=60)` succeeded, whether
`medicos_sem.acquire(timeout=60)` succeeded (only consulted after the room
was obtained), and the raw duration draw. -/
structure CirurgiaEnv where
  salaOk : Bool
  medicoOk : Bool
  u : ℚ

/-- `Patient.thread_cirurgia`: acquire the room first; on room timeout set
`cirurgia_done` and return.  With the room held, acquire a practitioner;
on practitioner timeout the code does `return` — only the *outer*
`finally` runs, releasing the room; `cirurgia_done.set()` sits in the
*inner* `finally` and is never executed on that path.  On success: hold a
uniform duration, then (inner `finally`) release the practitioner and set
`cirurgia_done`, then (outer `finally`) release the room. -/
def thread_cirurgia (e : CirurgiaEnv) : List Ev :=
  if e.salaOk then
    if e.medicoOk then
      [.acqOk .salas, .acqOk .medicos,
       .hold (uniform TEMPO_CIRURGIA_MIN TEMPO_CIRURGIA_MAX e.u),
       .rel .medicos, .sigSet .cirurgia, .rel .salas]
    else
      [.acqOk .salas, .acqTO .medicos, .rel .salas]
  else
    [.acqTO .salas, .sigSet .cirurgia]

/-- Whether a `thread_cirurgia` run ever sets `cirurgia_done`: false
exactly on the practitioner-timeout-after-room path, where the `return`
at line 174 skips the inner `finally` holding the only
`cirurgia_done.set()` call.  `run_process` can get past
`cirurgia_done.wait()` (line 106) only when this is true. -/
def cirurgiaSignals (e : CirurgiaEnv) : Bool :=
  (thread_cirurgia e).contains (Ev.sigSet .cirurgia)

/-- Environment of one `thread_leito` run: whether
`leitos_sem.acquire(timeout=120)` succeeded, the draw behind
`precisa_medico = random.random() < 0.2`, whether
`medicos_sem.acquire(timeout=60)` for the bed-side rounding succeeded, the
rounding duration draw, and the bed-stay duration draw. -/
structure LeitoEnv where
  leitoOk : Bool
  uPrecisa : ℚ
  medicoOk : Bool
  uMed : ℚ
  u : ℚ

/-- `Patient.thread_leito`: acquire a bed with timeout (on timeout set
`leito_done` and return); with the bed held, with probability 0.2 try to
acquire a practitioner for a short uniform(0.5, 1.5) rounding (a rounding
timeout is absorbed); then hold the bed-stay duration and (in `finally`)
release the bed and set `leito_done`. -/
def thread_leito (e : LeitoEnv) : List Ev :=
  if e.leitoOk then
    .acqOk .leitos ::
      ((if e.uPrecisa < (0.2 : ℚ) then
          if e.medicoOk then
            [.acqOk .medicos, .hold (uniform (0.5 : ℚ) (1.5 : ℚ) e.uMed),
             .rel .medicos]
          else
            [.acqTO .medicos]
        else []) ++
       [.hold (uniform TEMPO_LEITO_MIN TEMPO_LEITO_MAX e.u),
        .rel .leitos, .sigSet .leito])
  else
    [.acqTO .leitos, .sigSet .leito]

/-- Scan checker for the lock-ordering discipline of `thread_cirurgia`:
`medicoAfterSala tr salaHeld = true` iff every practitioner-acquisition
attempt (successful or timed out) in `tr` happens at a point where a
successful room acquisition has already occurred. -/
def medicoAfterSala : List Ev → Bool → Bool
  | [], _ => true
  | .acqOk .salas :: tr, _ => medicoAfterSala tr true
  | .acqOk .medicos :: tr, sala => sala && medicoAfterSala tr sala
  | .acqTO .medicos :: tr, sala => sala && medicoAfterSala tr sala
  | _ :: tr, sala => medicoAfterSala tr sala

/-- Scan checker: `occursBefore p q tr = true` iff scanning `tr` left to
right, an event satisfying `p` is met strictly before any event satisfying
`q` (vacuously true when no `q`-event occurs). -/
def occursBefore (p q : Ev → Bool) : List Ev → Bool
  | [] => true
  | e :: tr => if q e then false else if p e then true else occursBefore p q tr

/-- Net change an event causes to pool `r`'s outstanding-permit balance:
`+1` for a successful acquire, `-1` for a release. -/
def delta (r : Res) : Ev → ℤ
  | .acqOk r' => if r' = r then 1 else 0
  | .rel r' => if r' = r then -1 else 0
  | _ => 0

/-- Outstanding-permit balance of pool `r` over a trace:
(successful acquires) − (releases). -/
def bal (r : Res) (tr : List Ev) : ℤ := (tr.map (delta r)).sum

/-- The four activities a patient's `run_process` can launch as threads. -/
inductive Activity
  | consulta
  | exame
  | cirurgia
  | leito
deriving DecidableEq, Repr

/-- Environment of one `Patient.run_process` run: the environments of the
four activity threads it may launch, plus the raw draws behind its own
branching calls to `random.random()`:
`uExame` for `fazer_exame = random.random() < P_PROB_EXAME`,
`uDirect` for the direct-to-procedure draw (`< P_PROB_CIRURGIA_DIRECT`),
`uPos` for the post-exams procedure draw (`< P_PROB_CIRURGIA`, read only
when exams ran), and `uResid` for the residual-bed draw (`< 0.05`, read
only when no procedure happened). -/
structure ProcessEnv where
  consulta : ConsultaEnv
  uExame : ℚ
  uDirect : ℚ
  exame : ExameEnv
  uPos : ℚ
  cirurgia : CirurgiaEnv
  uResid : ℚ
  leito : LeitoEnv

/-- `fazer_exame = random.random() < P_PROB_EXAME` (line 86). -/
def fazer_exame (e : ProcessEnv) : Bool := e.uExame < P_PROB_EXAME

/-- `fazer_cirurgia` as `run_process` computes it: set by the
direct-to-procedure draw (line 90), or — when exams ran — by the
post-exams draw (line 99). -/
def fazer_cirurgia (e : ProcessEnv) : Bool :=
  e.uDirect < P_PROB_CIRURGIA_DIRECT ||
    (fazer_exame e && e.uPos < P_PROB_CIRURGIA)

/-- The sequence of activity threads `Patient.run_process` actually
launches, in launch order: consultation always; exams when
`fazer_exame`; when `fazer_cirurgia`, the procedure — and then a bed
*only if* the procedure thread sets `cirurgia_done`, since `run_process`
blocks at `cirurgia_done.wait()` (line 106) and on the
practitioner-timeout path that signal never fires, so the bed thread at
line 108 is never started; otherwise (no procedure) a bed with residual
probability 0.05. -/
def run_process_launches (e : ProcessEnv) : List Activity :=
  .consulta ::
    ((if fazer_exame e then [.exame] else []) ++
     (if fazer_cirurgia e then
        .cirurgia :: (if cirurgiaSignals e.cirurgia then [.leito] else [])
      else if e.uResid < (0.05 : ℚ) then [.leito] else []))

/-- The events the patient's whole run performs, linearized in the order
the completion-signal synchronization enforces (`run_process` blocks on
each launched activity's `…_done.wait()` before moving on).  When the
procedure thread never sets `cirurgia_done` (the practitioner-timeout
path), `run_process` stays blocked at line 106 forever: the trace ends
with the procedure thread's events and no bed thread ever runs. -/
def patientTrace (e : ProcessEnv) : List Ev :=
  thread_consulta e.consulta ++
    ((if fazer_exame e then thread_exame e.exame else []) ++
     (if fazer_cirurgia e then
        thread_cirurgia e.cirurgia ++
          (if cirurgiaSignals e.cirurgia then thread_leito e.leito else [])
      else if e.uResid < (0.05 : ℚ) then thread_leito e.leito else []))

/-- Caller-discipline invariant on a trace for pool `r`, started from an
outstanding balance `b ≥ 0`: the running balance (acquires − releases)
never drops below zero, i.e. no release ever happens without a matching
earlier successful acquire. -/
def goodFrom (r : Res) : ℤ → List Ev → Prop
  | _, [] => True
  | b, ev :: tr => 0 ≤ b + delta r ev ∧ goodFrom r (b + delta r ev) tr

/-- Semaphore-semantics side of a trace for pool `r` of capacity `cap`,
started from outstanding balance `b`: a successful acquire only ever
happens when a permit is available, so the running outstanding balance
never exceeds `cap`. -/
def capOK (r : Res) (cap : ℤ) : ℤ → List Ev → Prop
  | _, [] => True
  | b, ev :: tr => b + delta r ev ≤ cap ∧ capOK r cap (b + delta r ev) tr

/-- `Ilv a b c`: `c` is an interleaving of the traces `a` and `b`. -/
inductive Ilv : List Ev → List Ev → List Ev → Prop
  | nil : Ilv [] [] []
  | left {a b c : List Ev} (x : Ev) : Ilv a b c → Ilv (x :: a) b (x :: c)
  | right {a b c : List Ev} (x : Ev) : Ilv a b c → Ilv a (x :: b) (x :: c)

/-- `IlvN ls out`: `out` is an interleaving of all the traces in `ls`. -/
inductive IlvN : List (List Ev) → List Ev → Prop
  | nil : IlvN [] []
  | cons {l rest out : List Ev} {ls : List (List Ev)} :
      Ilv l rest out → IlvN ls rest → IlvN (l :: ls) out

/-!
## Shared-generator draw consumption (determinism claim)

All threads of the program draw from the single module-level `random`
generator.  After `random.seed(42)` that generator produces one fixed
sequence of values; *which* thread consumes which position of the sequence
is decided by the scheduler.  `patientSeqRun s i` is the execution of one
patient's threads when they run uninterrupted (no other patient's thread
scheduled in between) starting at position `i` of the seeded stream `s`,
with every semaphore acquire succeeding (all pools have free permits when
a single patient runs alone).  It returns the patient's branching
decisions — (did exams, did procedure, did bed) — and the next unconsumed
stream position.  Draw order, read off the source: consultation duration;
`fazer_exame`; direct-procedure; when exams run, the exam thread's
`precisa_medico` and duration; the post-exams procedure draw; when a
procedure runs, its duration; the bed thread's `precisa_medico`, optional
rounding duration, and bed-stay duration; when no procedure runs, the
residual-bed draw first. -/
def patientSeqRun (s : ℕ → ℚ) (i : ℕ) : (Bool × Bool × Bool) × ℕ :=
  let fe := decide (s (i + 1) < P_PROB_EXAME)
  let fc0 := decide (s (i + 2) < P_PROB_CIRURGIA_DIRECT)
  if fe then
    let fc := fc0 || decide (s (i + 5) < P_PROB_CIRURGIA)
    if fc then
      if decide (s (i + 7) < (0.2 : ℚ)) then ((true, true, true), i + 10)
      else ((true, true, true), i + 9)
    else if decide (s (i + 6) < (0.05 : ℚ)) then
      if decide (s (i + 7) < (0.2 : ℚ)) then ((true, false, true), i + 10)
      else ((true, false, true), i + 9)
    else ((true, false, false), i + 7)
  else
    if fc0 then
      if decide (s (i + 4) < (0.2 : ℚ)) then ((false, true, true), i + 7)
      else ((false, true, true), i + 6)
    else if decide (s (i + 3) < (0.05 : ℚ)) then
      if decide (s (i + 4) < (0.2 : ℚ)) then ((false, false, true), i + 7)
      else ((false, false, true), i + 6)
    else ((false, false, false), i + 4)

/-- A concrete seeded-generator output stream used to exhibit the
schedule-dependence of the branching decisions. -/
def exStream : ℕ → ℚ := fun n =>
  [(1 : ℚ)/2, 7/10, 9/10, 9/10, 9/10, 1/2, 9/10, 9/10, 9/10, 9/10, 9/10].getD n (9/10)

/-- Is this event a completion-signal set (`Event.set()` call)? -/
def isSet : Ev → Bool
  | .sigSet _ => true
  | _ => false

/-- Is this event a stage-outcome event — a completed timed hold (the
stage's work happened) or an acquisition timeout (the stage gave up)? -/
def isConcl : Ev → Bool
  | .hold _ => true
  | .acqTO _ => true
  | _ => false

/-- Scan checker: `conclBeforeSet tr seen = true` iff every
completion-signal set in `tr` is preceded (given `seen`, whether an
outcome event was already met) by a stage-outcome event: no signal is set
before its activity has concluded by success or timeout. -/
def conclBeforeSet : List Ev → Bool → Bool
  | [], _ => true
  | ev :: tr, seen =>
      if isSet ev then seen && conclBeforeSet tr seen
      else conclBeforeSet tr (seen || isConcl ev)

/-- Number of `s.set()` calls in a trace. -/
def sigCount (s : Sig) : List Ev → ℕ
  | [] => 0
  | .sigSet s' :: tr => (if s' = s then 1 else 0) + sigCount s tr
  | _ :: tr => sigCount s tr

/-- A concrete patient environment in which every acquisition times out
and every branching draw fails (raw draws at 1). -/
def envTO : ProcessEnv :=
  { consulta := ⟨false, 0⟩, uExame := 1, uDirect := 1, exame := ⟨1, false, 0⟩,
    uPos := 1, cirurgia := ⟨false, false, 0⟩, uResid := 1,
    leito := ⟨false, 1, false, 0, 0⟩ }

/-- A concrete patient environment hitting the procedure bug path: the
direct-to-procedure draw succeeds (no exams), the procedure thread
acquires the room, and its practitioner acquisition times out. -/
def envC5bug : ProcessEnv :=
  { consulta := ⟨true, 0⟩, uExame := 1, uDirect := 0, exame := ⟨1, false, 0⟩,
    uPos := 1, cirurgia := ⟨true, false, 0⟩, uResid := 1,
    leito := ⟨true, 1, true, 0, 0⟩ }

/-!
## Startup / configuration model

The source performs no configuration validation of its own: the pool
capacities, patient count, duration ranges and probabilities are
module-level constants consumed as-is.  The only check anywhere on the
startup path is inside CPython's `threading.Semaphore.__init__`, which
raises `ValueError` when the initial value is negative.  `run_simulation`
then starts `len(range(n))` patient threads unconditionally. -/
structure Config where
  nMedicos : ℤ
  nSalas : ℤ
  nLeitos : ℤ
  nPacientes : ℤ
  tConsultaMin : ℚ
  tConsultaMax : ℚ
  pExame : ℚ
  pCirurgia : ℚ
  pCirurgiaDirect : ℚ

/-- `threading.Semaphore(value)`: raises
`ValueError("semaphore initial value must be >= 0")` iff `value < 0`;
otherwise constructs the semaphore. -/
def semaphoreInit (value : ℤ) : Except String Unit :=
  if value < 0 then .error "semaphore initial value must be >= 0" else .ok ()

/-- Number of patient threads `run_simulation` starts:
`len([Patient(i+1) for i in range(n)])`. -/
def startedPatients (c : Config) : ℤ := max c.nPacientes 0

/-- Program startup: construct the three module-level semaphores (the only
operations that can reject anything), then run the simulation, which
starts the patient threads with no further validation.  Returns the number
of patient threads started. -/
def runMain (c : Config) : Except String ℤ :=
  match semaphoreInit c.nMedicos with
  | .error msg => .error msg
  | .ok _ =>
    match semaphoreInit c.nSalas with
    | .error msg => .error msg
    | .ok _ =>
      match semaphoreInit c.nLeitos with
      | .error msg => .error msg
      | .ok _ => .ok (startedPatients c)

/-- An invalid configuration in the sense of the specification: a
non-positive pool capacity (zero practitioners), with everything else at
the source's default values. -/
def cfgZeroMedicos : Config :=
  { nMedicos := 0, nSalas := 2, nLeitos := 10, nPacientes := 10,
    tConsultaMin := 30, tConsultaMax := 45,
    pExame := 0.6, pCirurgia := 0.3, pCirurgiaDirect := 0.05 }

/-!
## Theorems
-/

/-- C1 (code bug evidence): in `thread_cirurgia`, when the room was
acquired (`salaOk = true`) and the practitioner acquisition then timed out
(`medicoOk = false`), the thread's trace contains no
`cirurgia_done.set()` at all — the `return` at line 174 skips the inner
`finally` that holds the only `set` call, so the stage-completion signal
is never set and `run_process` blocks forever at line 106, contradicting
the specified always-signal-completion failure semantics. -/
theorem c1_practitioner_timeout_never_signals :
    Ev.sigSet .cirurgia ∉ thread_cirurgia ⟨true, false, 0⟩ := by decide

/-- C2: in every code path of `thread_cirurgia`, any attempt to acquire a
practitioner permit (successful or timed out) happens strictly after a
successful room acquisition — the room is always acquired first. -/
theorem c2_room_before_practitioner (e : CirurgiaEnv) :
    medicoAfterSala (thread_cirurgia e) false = true := by
  cases h1 : e.salaOk <;> cases h2 : e.medicoOk <;>
    simp [thread_cirurgia, h1, h2, medicoAfterSala]

/-- C3: in `thread_cirurgia`, when the room was acquired and the
practitioner acquisition timed out, the room permit is released exactly
once, and that release is the last event before the activity thread
terminates — the partial acquisition does not leak the room permit. -/
theorem c3_room_released_once_on_practitioner_timeout (e : CirurgiaEnv)
    (h1 : e.salaOk = true) (h2 : e.medicoOk = false) :
    (thread_cirurgia e).count (Ev.rel .salas) = 1 ∧
    (thread_cirurgia e).getLast? = some (Ev.rel .salas) := by
  have h : thread_cirurgia e = [.acqOk .salas, .acqTO .medicos, .rel .salas] := by
    simp [thread_cirurgia, h1, h2]
  rw [h]
  decide

/-- Witness for C3 at a concrete environment. -/
theorem c3_witness :
    (thread_cirurgia ⟨true, false, 0⟩).count (Ev.rel .salas) = 1 ∧
    (thread_cirurgia ⟨true, false, 0⟩).getLast? = some (Ev.rel .salas) :=
  c3_room_released_once_on_practitioner_timeout ⟨true, false, 0⟩ rfl rfl

/-- C6: `thread_consulta` with a raw uniform draw in [0,1]: on acquire
timeout the trace is exactly a timed-out acquire followed by the
completion-signal set — no release, and the practitioner pool's net permit
balance is unchanged; on acquire success the thread holds the permit for a
duration `uniform(TEMPO_CONSULTA_MIN, TEMPO_CONSULTA_MAX)` lying in the
configured range, then releases the permit and sets the completion
signal. -/
theorem c6_consulta_behaviour (e : ConsultaEnv) (h0 : 0 ≤ e.u) (h1 : e.u ≤ 1) :
    (e.medicoOk = false →
       thread_consulta e = [.acqTO .medicos, .sigSet .consulta] ∧
       bal .medicos (thread_consulta e) = 0) ∧
    (e.medicoOk = true →
       ∃ d, thread_consulta e =
           [.acqOk .medicos, .hold d, .rel .medicos, .sigSet .consulta] ∧
         TEMPO_CONSULTA_MIN ≤ d ∧ d ≤ TEMPO_CONSULTA_MAX ∧
         bal .medicos (thread_consulta e) = 0) := by
  constructor
  · intro h
    simp [thread_consulta, h, bal, delta]
  · intro h
    refine ⟨uniform TEMPO_CONSULTA_MIN TEMPO_CONSULTA_MAX e.u,
      by simp [thread_consulta, h], ?_, ?_, by simp [thread_consulta, h, bal, delta]⟩
    · unfold uniform TEMPO_CONSULTA_MIN TEMPO_CONSULTA_MAX
      nlinarith
    · unfold uniform TEMPO_CONSULTA_MIN TEMPO_CONSULTA_MAX
      nlinarith

/-- Witness for C6 at the concrete environment (acquire succeeds,
raw draw 1/2). -/
theorem c6_witness :
    ((ConsultaEnv.mk true (1/2)).medicoOk = false →
       thread_consulta (ConsultaEnv.mk true (1/2)) =
         [.acqTO .medicos, .sigSet .consulta] ∧
       bal .medicos (thread_consulta (ConsultaEnv.mk true (1/2))) = 0) ∧
    ((ConsultaEnv.mk true (1/2)).medicoOk = true →
       ∃ d, thread_consulta (ConsultaEnv.mk true (1/2)) =
           [.acqOk .medicos, .hold d, .rel .medicos, .sigSet .consulta] ∧
         TEMPO_CONSULTA_MIN ≤ d ∧ d ≤ TEMPO_CONSULTA_MAX ∧
         bal .medicos (thread_consulta (ConsultaEnv.mk true (1/2))) = 0) :=
  c6_consulta_behaviour ⟨true, 1/2⟩ (by norm_num) (by norm_num)

/-- C5 (code bug evidence): at the concrete environment where the
direct-to-procedure draw succeeds, the procedure thread acquires the room
and its practitioner acquisition times out, the procedure activity is
launched but the bed activity never is — `run_process` blocks forever at
`cirurgia_done.wait()` (line 106) because the signal is never set (the C1
bug), so the bed thread at line 108 is never started, contradicting the
claim that the bed is always launched after a launched procedure. -/
theorem c5_procedure_launched_without_bed :
    Activity.cirurgia ∈ run_process_launches envC5bug ∧
    Activity.leito ∉ run_process_launches envC5bug := by
  have h : run_process_launches envC5bug = [.consulta, .cirurgia] := by
    norm_num [run_process_launches, envC5bug, fazer_exame, fazer_cirurgia,
      cirurgiaSignals, thread_cirurgia, P_PROB_EXAME, P_PROB_CIRURGIA,
      P_PROB_CIRURGIA_DIRECT]
    decide
  rw [h]
  decide

/-- C10: in the single-resource activities the permit release happens
strictly before the stage-completion signal is set (consultation and the
practitioner-assisted exam release the practitioner first; the bed
activity releases the bed first), while the procedure activity is the
exception: it sets its completion signal strictly before releasing the
room permit. -/
theorem c10_release_before_signal (ec : ConsultaEnv) (ee : ExameEnv)
    (el : LeitoEnv) (eg : CirurgiaEnv) :
    (ec.medicoOk = true →
      occursBefore (· == Ev.rel .medicos) (· == Ev.sigSet .consulta)
        (thread_consulta ec) = true) ∧
    (ee.uPrecisa < (0.3 : ℚ) → ee.medicoOk = true →
      occursBefore (· == Ev.rel .medicos) (· == Ev.sigSet .exames)
        (thread_exame ee) = true) ∧
    (el.leitoOk = true →
      occursBefore (· == Ev.rel .leitos) (· == Ev.sigSet .leito)
        (thread_leito el) = true) ∧
    (eg.salaOk = true → eg.medicoOk = true →
      occursBefore (· == Ev.sigSet .cirurgia) (· == Ev.rel .salas)
        (thread_cirurgia eg) = true) := by
  refine ⟨fun h1 => ?_, fun h2 h3 => ?_, fun h4 => ?_, fun h5 h6 => ?_⟩
  · simp [thread_consulta, h1, occursBefore]
  · simp [thread_exame, h2, h3, occursBefore]
  · by_cases hp : el.uPrecisa < (0.2 : ℚ) <;>
      cases hm : el.medicoOk <;>
        simp [thread_leito, h4, hp, hm, occursBefore]
  · simp [thread_cirurgia, h5, h6, occursBefore]

/-- Witness for C10 at concrete environments (all acquisitions succeed;
the exam needs a practitioner; the bed needs no rounding). -/
theorem c10_witness :
    (occursBefore (· == Ev.rel .medicos) (· == Ev.sigSet .consulta)
        (thread_consulta ⟨true, 0⟩) = true) ∧
    (occursBefore (· == Ev.rel .medicos) (· == Ev.sigSet .exames)
        (thread_exame ⟨0, true, 0⟩) = true) ∧
    (occursBefore (· == Ev.rel .leitos) (· == Ev.sigSet .leito)
        (thread_leito ⟨true, 1, true, 0, 0⟩) = true) ∧
    (occursBefore (· == Ev.sigSet .cirurgia) (· == Ev.rel .salas)
        (thread_cirurgia ⟨true, true, 0⟩) = true) :=
  ⟨(c10_release_before_signal ⟨true, 0⟩ ⟨0, true, 0⟩ ⟨true, 1, true, 0, 0⟩
      ⟨true, true, 0⟩).1 rfl,
   (c10_release_before_signal ⟨true, 0⟩ ⟨0, true, 0⟩ ⟨true, 1, true, 0, 0⟩
      ⟨true, true, 0⟩).2.1 (by norm_num) rfl,
   (c10_release_before_signal ⟨true, 0⟩ ⟨0, true, 0⟩ ⟨true, 1, true, 0, 0⟩
      ⟨true, true, 0⟩).2.2.1 rfl,
   (c10_release_before_signal ⟨true, 0⟩ ⟨0, true, 0⟩ ⟨true, 1, true, 0, 0⟩
      ⟨true, true, 0⟩).2.2.2 rfl rfl⟩

/-- The conclusion-before-set scan only depends monotonically on the
already-seen flag. -/
theorem conclBeforeSet_mono (tr : List Ev) : ∀ b : Bool,
    conclBeforeSet tr b = true → conclBeforeSet tr true = true := by
  induction tr with
  | nil => intro b _; rfl
  | cons ev tr ih =>
    intro b h
    cases hs : isSet ev <;> simp [conclBeforeSet, hs] at h ⊢
    · exact ih _ h
    · exact h.1 ▸ h.2

/-- The conclusion-before-set scan is preserved by concatenating traces
that each satisfy it. -/
theorem conclBeforeSet_append (a : List Ev) : ∀ (b₂ : List Ev) (s : Bool),
    conclBeforeSet a s = true → conclBeforeSet b₂ false = true →
    conclBeforeSet (a ++ b₂) s = true := by
  induction a with
  | nil =>
    intro b₂ s h1 h2
    cases s
    · simpa using h2
    · simpa using conclBeforeSet_mono b₂ false h2
  | cons ev a ih =>
    intro b₂ s h1 h2
    cases hs : isSet ev <;>
      simp [List.cons_append, conclBeforeSet, hs] at h1 ⊢
    · exact ih b₂ _ h1 h2
    · exact ⟨h1.1, ih b₂ s h1.2 h2⟩

/-- Every activity trace of `thread_consulta` sets its signal only after
an outcome event. -/
theorem conclBeforeSet_consulta (e : ConsultaEnv) :
    conclBeforeSet (thread_consulta e) false = true := by
  cases h : e.medicoOk <;>
    simp [thread_consulta, h, conclBeforeSet, isSet, isConcl]

/-- Every activity trace of `thread_exame` sets its signal only after an
outcome event. -/
theorem conclBeforeSet_exame (e : ExameEnv) :
    conclBeforeSet (thread_exame e) false = true := by
  by_cases hp : e.uPrecisa < (0.3 : ℚ) <;> cases hm : e.medicoOk <;>
    simp [thread_exame, hp, hm, conclBeforeSet, isSet, isConcl]

/-- Every activity trace of `thread_cirurgia` sets its signal only after
an outcome event. -/
theorem conclBeforeSet_cirurgia (e : CirurgiaEnv) :
    conclBeforeSet (thread_cirurgia e) false = true := by
  cases h1 : e.salaOk <;> cases h2 : e.medicoOk <;>
    simp [thread_cirurgia, h1, h2, conclBeforeSet, isSet, isConcl]

/-- Every activity trace of `thread_leito` sets its signal only after an
outcome event. -/
theorem conclBeforeSet_leito (e : LeitoEnv) :
    conclBeforeSet (thread_leito e) false = true := by
  cases hl : e.leitoOk <;> by_cases hp : e.uPrecisa < (0.2 : ℚ) <;>
    cases hm : e.medicoOk <;>
      simp [thread_leito, hl, hp, hm, conclBeforeSet, isSet, isConcl]

/-- `sigCount` distributes over concatenation. -/
theorem sigCount_append (s : Sig) (a b : List Ev) :
    sigCount s (a ++ b) = sigCount s a + sigCount s b := by
  induction a with
  | nil => simp [sigCount]
  | cons ev a ih =>
    cases ev <;> simp [sigCount, ih]
    omega

/-- `thread_consulta` sets only its own signal, at most once. -/
theorem sigCount_consulta_le (e : ConsultaEnv) (s : Sig) :
    sigCount s (thread_consulta e) ≤ (if s = Sig.consulta then 1 else 0) := by
  cases h : e.medicoOk <;> cases s <;> simp [thread_consulta, h, sigCount]

/-- `thread_exame` sets only its own signal, at most once. -/
theorem sigCount_exame_le (e : ExameEnv) (s : Sig) :
    sigCount s (thread_exame e) ≤ (if s = Sig.exames then 1 else 0) := by
  by_cases hp : e.uPrecisa < (0.3 : ℚ) <;> cases hm : e.medicoOk <;>
    cases s <;> simp [thread_exame, hp, hm, sigCount]

/-- `thread_cirurgia` sets only its own signal, at most once (zero times
on the practitioner-timeout path). -/
theorem sigCount_cirurgia_le (e : CirurgiaEnv) (s : Sig) :
    sigCount s (thread_cirurgia e) ≤ (if s = Sig.cirurgia then 1 else 0) := by
  cases h1 : e.salaOk <;> cases h2 : e.medicoOk <;>
    cases s <;> simp [thread_cirurgia, h1, h2, sigCount]

/-- `thread_leito` sets only its own signal, at most once. -/
theorem sigCount_leito_le (e : LeitoEnv) (s : Sig) :
    sigCount s (thread_leito e) ≤ (if s = Sig.leito then 1 else 0) := by
  cases hl : e.leitoOk <;> by_cases hp : e.uPrecisa < (0.2 : ℚ) <;>
    cases hm : e.medicoOk <;>
      cases s <;> simp [thread_leito, hl, hp, hm, sigCount, sigCount_append]

/-- C9: over a patient's whole run, each of the four stage-completion
signals is set at most once; no activity is launched twice; and every
signal set happens only after an outcome event (a completed hold or an
acquisition timeout) of its activity — the stage concluded by success or
timeout first. -/
theorem c9_signals_once_and_after_conclusion (e : ProcessEnv) :
    (∀ s : Sig, sigCount s (patientTrace e) ≤ 1) ∧
    (∀ a : Activity, (run_process_launches e).count a ≤ 1) ∧
    conclBeforeSet (patientTrace e) false = true := by
  refine ⟨?_, ?_, ?_⟩
  · intro s
    unfold patientTrace
    rw [sigCount_append, sigCount_append]
    have h1 := sigCount_consulta_le e.consulta s
    have h2 : sigCount s (if fazer_exame e then thread_exame e.exame else []) ≤
        (if s = Sig.exames then 1 else 0) := by
      split
      · exact sigCount_exame_le e.exame s
      · simp [sigCount]
    have h3 : sigCount s
        (if fazer_cirurgia e then
           thread_cirurgia e.cirurgia ++
             (if cirurgiaSignals e.cirurgia then thread_leito e.leito else [])
         else if e.uResid < (0.05 : ℚ) then thread_leito e.leito else []) ≤
        (if s = Sig.cirurgia then 1 else 0) + (if s = Sig.leito then 1 else 0) := by
      split
      · rw [sigCount_append]
        refine Nat.add_le_add (sigCount_cirurgia_le e.cirurgia s) ?_
        split
        · exact sigCount_leito_le e.leito s
        · simp [sigCount]
      · split
        · calc sigCount s (thread_leito e.leito) ≤ _ := sigCount_leito_le e.leito s
            _ ≤ _ := by cases s <;> simp
        · simp [sigCount]
    cases s <;> simp at h1 h2 h3 <;> omega
  · intro a
    unfold run_process_launches
    by_cases hfe : fazer_exame e = true <;>
      by_cases hfc : fazer_cirurgia e = true <;>
        by_cases hr : e.uResid < (0.05 : ℚ) <;>
          cases hcs : cirurgiaSignals e.cirurgia <;>
            simp [hfe, hfc, hr, hcs] <;> cases a <;>
              simp [List.count_cons, List.count_nil]
  · unfold patientTrace
    refine conclBeforeSet_append _ _ _ (conclBeforeSet_consulta e.consulta) ?_
    refine conclBeforeSet_append _ _ _ ?_ ?_
    · split
      · exact conclBeforeSet_exame e.exame
      · rfl
    · split
      · refine conclBeforeSet_append _ _ _ (conclBeforeSet_cirurgia e.cirurgia) ?_
        split
        · exact conclBeforeSet_leito e.leito
        · rfl
      · split
        · exact conclBeforeSet_leito e.leito
        · rfl

/-- A trace interleaves with the empty trace to itself (appending nothing). -/
theorem ilv_append (a b : List Ev) : Ilv a b (a ++ b) := by
  induction a with
  | nil =>
    induction b with
    | nil => exact .nil
    | cons x b ihb => exact .right x ihb
  | cons x a iha => exact .left x iha

/-- Interleaving two traces that satisfy the caller discipline from
nonnegative outstanding balances satisfies it from the summed balance. -/
theorem goodFrom_ilv {a b c : List Ev} (h : Ilv a b c) (r : Res) :
    ∀ m n : ℤ, 0 ≤ m → 0 ≤ n → goodFrom r m a → goodFrom r n b →
      goodFrom r (m + n) c := by
  induction h with
  | nil => intro m n _ _ _ _; trivial
  | left x _ ih =>
    intro m n hm hn ha hb
    simp only [goodFrom] at ha ⊢
    obtain ⟨h1, h2⟩ := ha
    refine ⟨by linarith, ?_⟩
    have hh := ih (m + delta r x) n h1 hn h2 hb
    have heq : m + delta r x + n = m + n + delta r x := by ring
    rwa [heq] at hh
  | right x _ ih =>
    intro m n hm hn ha hb
    simp only [goodFrom] at hb ⊢
    obtain ⟨h1, h2⟩ := hb
    refine ⟨by linarith, ?_⟩
    have hh := ih m (n + delta r x) hm h1 ha h2
    have heq : m + (n + delta r x) = m + n + delta r x := by ring
    rwa [heq] at hh

/-- An interleaving of traces that each satisfy the caller discipline
satisfies it. -/
theorem goodFrom_ilvN {ls : List (List Ev)} {out : List Ev} (h : IlvN ls out)
    (r : Res) (hall : ∀ l ∈ ls, goodFrom r 0 l) : goodFrom r 0 out := by
  induction h with
  | nil => trivial
  | @cons l rest outc ls hIlv _ ih =>
    have hrest : goodFrom r 0 rest := ih (fun l' hl' => hall l' (by simp [hl']))
    have hl : goodFrom r 0 l := hall l (by simp)
    simpa using goodFrom_ilv hIlv r 0 0 le_rfl le_rfl hl hrest

/-- Caller discipline bounds every prefix's balance below by zero. -/
theorem goodFrom_pre (r : Res) :
    ∀ (tr p rest : List Ev) (b : ℤ), goodFrom r b tr → 0 ≤ b →
      p ++ rest = tr → 0 ≤ b + bal r p := by
  intro tr
  induction tr with
  | nil =>
    intro p rest b _ hb hp
    have hpnil : p = [] := by
      cases p with
      | nil => rfl
      | cons x xs => simp at hp
    subst hpnil
    simpa [bal] using hb
  | cons ev tr ih =>
    intro p rest b hg hb hp
    cases p with
    | nil => simpa [bal] using hb
    | cons x p' =>
      simp only [List.cons_append] at hp
      injection hp with hx htl
      subst hx
      simp only [goodFrom] at hg
      obtain ⟨h1, h2⟩ := hg
      have hh := ih p' rest (b + delta r x) h2 h1 htl
      have hc : bal r (x :: p') = delta r x + bal r p' := by simp [bal]
      rw [hc]
      linarith

/-- Semaphore semantics bounds every prefix's balance above by the
capacity. -/
theorem capOK_pre (r : Res) (cap : ℤ) :
    ∀ (tr p rest : List Ev) (b : ℤ), capOK r cap b tr → b ≤ cap →
      p ++ rest = tr → b + bal r p ≤ cap := by
  intro tr
  induction tr with
  | nil =>
    intro p rest b _ hb hp
    have hpnil : p = [] := by
      cases p with
      | nil => rfl
      | cons x xs => simp at hp
    subst hpnil
    simpa [bal] using hb
  | cons ev tr ih =>
    intro p rest b hg hb hp
    cases p with
    | nil => simpa [bal] using hb
    | cons x p' =>
      simp only [List.cons_append] at hp
      injection hp with hx htl
      subst hx
      simp only [capOK] at hg
      obtain ⟨h1, h2⟩ := hg
      have hh := ih p' rest (b + delta r x) h2 h1 htl
      have hc : bal r (x :: p') = delta r x + bal r p' := by simp [bal]
      rw [hc]
      linarith

/-- `thread_consulta` obeys the caller discipline on every pool. -/
theorem goodFrom_consulta (e : ConsultaEnv) (r : Res) :
    goodFrom r 0 (thread_consulta e) := by
  cases h : e.medicoOk <;> cases r <;>
    simp [thread_consulta, h, goodFrom, delta]

/-- `thread_exame` obeys the caller discipline on every pool. -/
theorem goodFrom_exame (e : ExameEnv) (r : Res) :
    goodFrom r 0 (thread_exame e) := by
  by_cases hp : e.uPrecisa < (0.3 : ℚ) <;> cases hm : e.medicoOk <;> cases r <;>
    simp [thread_exame, hp, hm, goodFrom, delta]

/-- `thread_cirurgia` obeys the caller discipline on every pool — also on
the practitioner-timeout path, where the room is still released exactly
once after its successful acquisition. -/
theorem goodFrom_cirurgia (e : CirurgiaEnv) (r : Res) :
    goodFrom r 0 (thread_cirurgia e) := by
  cases h1 : e.salaOk <;> cases h2 : e.medicoOk <;> cases r <;>
    simp [thread_cirurgia, h1, h2, goodFrom, delta]

/-- `thread_leito` obeys the caller discipline on every pool. -/
theorem goodFrom_leito (e : LeitoEnv) (r : Res) :
    goodFrom r 0 (thread_leito e) := by
  cases hl : e.leitoOk <;> by_cases hp : e.uPrecisa < (0.2 : ℚ) <;>
    cases hm : e.medicoOk <;> cases r <;>
      simp [thread_leito, hl, hp, hm, goodFrom, delta]

/-- Concatenation preserves the caller discipline from zero balance. -/
theorem goodFrom_append {a b : List Ev} (r : Res)
    (ha : goodFrom r 0 a) (hb : goodFrom r 0 b) : goodFrom r 0 (a ++ b) := by
  simpa using goodFrom_ilv (ilv_append a b) r 0 0 le_rfl le_rfl ha hb

/-- A patient's whole-run trace obeys the caller discipline on every
pool: every release is preceded by a matching successful acquire. -/
theorem goodFrom_patient (e : ProcessEnv) (r : Res) :
    goodFrom r 0 (patientTrace e) := by
  unfold patientTrace
  refine goodFrom_append r (goodFrom_consulta e.consulta r) ?_
  refine goodFrom_append r ?_ ?_
  · split
    · exact goodFrom_exame e.exame r
    · trivial
  · split
    · refine goodFrom_append r (goodFrom_cirurgia e.cirurgia r) ?_
      split
      · exact goodFrom_leito e.leito r
      · trivial
    · split
      · exact goodFrom_leito e.leito r
      · trivial

/-- C4: for any number of patients and any interleaving `out` of their
whole-run traces, and any pool `r` of capacity `cap`, under semaphore
semantics (`capOK`: an acquire succeeds only when a permit is free) the
pool's available-permit count `cap - bal` stays within `[0, cap]` at every
prefix of the interleaving: it never goes negative and never exceeds the
capacity, because every activity releases each permit exactly once per
successful acquire and never releases without a prior acquire. -/
theorem c4_pool_bounds (es : List ProcessEnv) (out : List Ev)
    (h : IlvN (es.map patientTrace) out) (r : Res) (cap : ℤ) (hcap : 0 ≤ cap)
    (hsem : capOK r cap 0 out) :
    ∀ p rest : List Ev, p ++ rest = out →
      0 ≤ cap - bal r p ∧ cap - bal r p ≤ cap := by
  intro p rest hp
  have hall : ∀ l ∈ es.map patientTrace, goodFrom r 0 l := by
    intro l hl
    obtain ⟨e, _, rfl⟩ := List.mem_map.mp hl
    exact goodFrom_patient e r
  have hg : goodFrom r 0 out := goodFrom_ilvN h r hall
  constructor
  · have := capOK_pre r cap out p rest 0 hsem hcap hp
    linarith
  · have := goodFrom_pre r out p rest 0 hg le_rfl hp
    linarith

/-- The all-timeout patient's trace is just the timed-out consultation. -/
theorem patientTrace_envTO :
    patientTrace envTO = [.acqTO .medicos, .sigSet .consulta] := by
  norm_num [patientTrace, thread_consulta, envTO, fazer_exame, fazer_cirurgia,
    P_PROB_EXAME, P_PROB_CIRURGIA, P_PROB_CIRURGIA_DIRECT]

/-- Witness for C4: a single patient whose consultation acquire times
out, the practitioner pool at its configured capacity 5, and the prefix
ending right after the timed-out acquire. -/
theorem c4_witness :
    0 ≤ (5 : ℤ) - bal .medicos [Ev.acqTO .medicos] ∧
    (5 : ℤ) - bal .medicos [Ev.acqTO .medicos] ≤ 5 :=
  c4_pool_bounds [envTO] (patientTrace envTO)
    (IlvN.cons (by simpa using ilv_append (patientTrace envTO) []) IlvN.nil)
    .medicos 5 (by norm_num)
    (by rw [patientTrace_envTO]; norm_num [capOK, delta])
    [Ev.acqTO .medicos] [Ev.sigSet .consulta]
    (by rw [patientTrace_envTO]; rfl)

/-- C7 counterexample: same configuration, same seeded generator stream
(`exStream`), two admissible thread schedules.  Running patient 1's
threads first gives patient 1 the decisions (no exams, no procedure, no
bed); running patient 2's threads first makes patient 2 consume the first
stream positions, after which patient 1 decides (exams, no procedure, no
bed).  The branching decisions depend on thread timing, so they are not
identical across runs with the same seed. -/
theorem c7_counterexample :
    (patientSeqRun exStream 0).1 ≠
      (patientSeqRun exStream (patientSeqRun exStream 0).2).1 := by
  norm_num [patientSeqRun, exStream, P_PROB_EXAME, P_PROB_CIRURGIA,
    P_PROB_CIRURGIA_DIRECT]

/-- C7 amended: a patient run's branching decisions (and its stream
consumption) are a function of the stream positions its threads actually
read: two seeded streams agreeing on the window a run reads produce the
same decisions.  Determinism under a fixed seed therefore holds exactly
when the schedule assigns each patient the same stream positions across
the two runs; the shared global generator makes that assignment depend on
thread timing (see the counterexample). -/
theorem c7_decisions_determined_by_consumed_draws (s s' : ℕ → ℚ) (i : ℕ)
    (h : ∀ j, i ≤ j → j < i + 8 → s j = s' j) :
    patientSeqRun s i = patientSeqRun s' i := by
  have h1 : s (i + 1) = s' (i + 1) := h _ (by omega) (by omega)
  have h2 : s (i + 2) = s' (i + 2) := h _ (by omega) (by omega)
  have h3 : s (i + 3) = s' (i + 3) := h _ (by omega) (by omega)
  have h4 : s (i + 4) = s' (i + 4) := h _ (by omega) (by omega)
  have h5 : s (i + 5) = s' (i + 5) := h _ (by omega) (by omega)
  have h6 : s (i + 6) = s' (i + 6) := h _ (by omega) (by omega)
  have h7 : s (i + 7) = s' (i + 7) := h _ (by omega) (by omega)
  simp only [patientSeqRun, h1, h2, h3, h4, h5, h6, h7]

/-- Witness for the amended C7 at a concrete pair of streams agreeing on
the consumed window. -/
theorem c7_witness :
    patientSeqRun exStream 0 =
      patientSeqRun (fun n => if n < 8 then exStream n else 0) 0 :=
  c7_decisions_determined_by_consumed_draws exStream
    (fun n => if n < 8 then exStream n else 0) 0
    (fun j _ hj => by
      show exStream j = if j < 8 then exStream j else 0
      rw [if_pos (show j < 8 by omega)])

/-- C8 counterexample: the configuration with zero practitioners is
invalid in the specification's sense (non-positive pool capacity), yet
startup performs no validation: no error is reported and all 10 patient
threads are started. -/
theorem c8_counterexample : runMain cfgZeroMedicos = .ok 10 := by
  simp [runMain, semaphoreInit, startedPatients, cfgZeroMedicos]

/-- C8 amended: the only configurations rejected at startup are those
with a *negative* pool capacity — CPython's `Semaphore.__init__` raises
`ValueError` while the module-level pools are constructed, which happens
before any patient thread starts.  Every other invalid configuration
(zero capacity, non-positive patient count, inverted duration range,
probability outside [0,1]) is accepted silently and the simulation starts
its patient threads. -/
theorem c8_rejected_iff_negative_capacity (c : Config) :
    (∃ msg, runMain c = .error msg) ↔
      (c.nMedicos < 0 ∨ c.nSalas < 0 ∨ c.nLeitos < 0) := by
  unfold runMain semaphoreInit
  by_cases h1 : c.nMedicos < 0 <;> by_cases h2 : c.nSalas < 0 <;>
    by_cases h3 : c.nLeitos < 0 <;> simp [h1, h2, h3]

end Hospital
